import Mathlib

/-!
Shallow embedding of the trip-planner core (`src/lib/timeCalculations.ts`)
and verification of the specification claims about it.

Modelling choices:
* JavaScript `Date` values are modelled as rationals (`ℚ`), a timestamp
  measured in hours since an arbitrary epoch; `date-fns`' `addHours`
  adds a (possibly fractional) number of hours as a duration, which on
  this timeline is plain addition (spec §4.1: hour arithmetic adds hours
  as a duration).
* JavaScript numbers are modelled as rationals (`ℚ`): every value the
  program manipulates in the claims is an exact decimal.
* Strings are modelled as Lean `String`s / `List Char`.
-/

namespace TripPlanner

/-- The `travelType` field of a stop: the literal union `'drive' | 'fly'`
from `src/types/trip.ts`. -/
inductive TravelType where
  | drive
  | fly
deriving DecidableEq, Repr

/-- The `TripStop` interface from `src/types/trip.ts`.  `Date` is modelled
as `ℚ` (hours since an epoch), `number` as `ℚ`, `T | null` as `Option T`. -/
structure TripStop where
  id : String
  placeId : String
  name : String
  city : String
  state : String
  fullAddress : String
  lat : ℚ
  lng : ℚ
  timeAtDestination : ℚ
  driveTimeFromPrevious : Option ℚ
  travelType : TravelType
  notes : String
  manualDepartureTime : Option ℚ
deriving DecidableEq, Repr

/-- The `CalculatedStop` interface from `src/types/trip.ts`: all `TripStop`
fields plus `arrivalTime : Date | null` and `departureTime : Date`. -/
structure CalculatedStop extends TripStop where
  arrivalTime : Option ℚ
  departureTime : ℚ
deriving DecidableEq, Repr

/-- Model of `date-fns` `addHours`: add a number of hours to a timestamp.  On the
rational timeline this is addition. -/
def addHours (d : ℚ) (h : ℚ) : ℚ := d + h

/-- The `i = 0` branch of the loop in `calculateItinerary`
(`timeCalculations.ts` lines 14-23): no arrival, departure is the manual
override if set, otherwise the current time. -/
def calcFirst (stop : TripStop) (currentTime : ℚ) : CalculatedStop :=
  { toTripStop := stop
    arrivalTime := none
    departureTime := stop.manualDepartureTime.getD currentTime }

/-- The `i ≥ 1` branch of the loop in `calculateItinerary`
(`timeCalculations.ts` lines 24-38): arrival is the current time plus the
drive time (`null` counted as 0), departure is the manual override if set,
otherwise arrival plus `timeAtDestination`. -/
def calcStop (stop : TripStop) (currentTime : ℚ) : CalculatedStop :=
  let driveTime := stop.driveTimeFromPrevious.getD 0
  let arrivalTime := addHours currentTime driveTime
  let departureTime :=
    stop.manualDepartureTime.getD (addHours arrivalTime stop.timeAtDestination)
  { toTripStop := stop
    arrivalTime := some arrivalTime
    departureTime := departureTime }

/-- The tail of the loop in `calculateItinerary`: process the stops at
index ≥ 1, threading the running `currentTime` cursor (which is advanced to
each stop's departure time). -/
def calcRest : List TripStop → ℚ → List CalculatedStop
  | [], _ => []
  | stop :: rest, currentTime =>
    let c := calcStop stop currentTime
    c :: calcRest rest c.departureTime

/-- The function `calculateItinerary` from `src/lib/timeCalculations.ts` (lines 4-43):
a single left-to-right pass over the stops threading a `currentTime`
cursor initialised to `startDateTime`. -/
def calculateItinerary (stops : List TripStop) (startDateTime : ℚ) :
    List CalculatedStop :=
  match stops with
  | [] => []
  | first :: rest =>
    let c := calcFirst first startDateTime
    c :: calcRest rest c.departureTime

theorem length_calcRest (l : List TripStop) (t : ℚ) :
    (calcRest l t).length = l.length := by
  induction l generalizing t with
  | nil => rfl
  | cons s r ih => simp [calcRest, ih]

theorem length_calculateItinerary (stops : List TripStop) (start : ℚ) :
    (calculateItinerary stops start).length = stops.length := by
  cases stops with
  | nil => rfl
  | cons s r => simp [calculateItinerary, length_calcRest]

/-- JavaScript truncation toward zero, used by the `%` operator. -/
def jsTrunc (q : ℚ) : ℤ := if 0 ≤ q then ⌊q⌋ else ⌈q⌉

/-- The JavaScript remainder operator `x % y`: `x - y * trunc(x / y)`. -/
def jsMod (x y : ℚ) : ℚ := x - y * jsTrunc (x / y)

/-- JavaScript `Math.round`: round half toward positive infinity. -/
def jsRound (q : ℚ) : ℤ := ⌊q + 1 / 2⌋

/-- JavaScript `Math.floor`. -/
def jsFloor (q : ℚ) : ℤ := ⌊q⌋

/-- The function `formatDuration` from `src/lib/timeCalculations.ts` (lines 45-64).
In the source `useDays` defaults to `true`; here it is passed explicitly. -/
def formatDuration (hours : ℚ) (useDays : Bool) : String :=
  if useDays ∧ 24 ≤ hours then
    let days := jsFloor (hours / 24)
    let remainingHours := jsMod hours 24
    if remainingHours = 0 then
      toString days ++ "d"
    else
      toString days ++ "d " ++ toString (jsRound remainingHours) ++ "h"
  else
    let wholeHours := jsFloor hours
    let minutes := jsRound ((hours - wholeHours) * 60)
    if wholeHours = 0 then
      toString minutes ++ "m"
    else if minutes = 0 then
      toString wholeHours ++ "h"
    else
      toString wholeHours ++ "h " ++ toString minutes ++ "m"

/-- The whitespace class used both by JavaScript `String.prototype.trim`
and by `\s` in JavaScript regular expressions (ECMA-262 WhiteSpace and
LineTerminator code points, including the Unicode `Space_Separator`
category). -/
def isWsChar (c : Char) : Bool :=
  let n := c.toNat
  (9 ≤ n ∧ n ≤ 13) ∨ n = 32 ∨ n = 160 ∨ n = 0x1680 ∨
    (0x2000 ≤ n ∧ n ≤ 0x200a) ∨ n = 0x2028 ∨ n = 0x2029 ∨
    n = 0x202f ∨ n = 0x205f ∨ n = 0x3000 ∨ n = 0xfeff

/-- JavaScript `String.prototype.trim`: strip leading and trailing
whitespace. -/
def jsTrim (l : List Char) : List Char :=
  ((l.dropWhile isWsChar).reverse.dropWhile isWsChar).reverse

/-- Character-level model of `String.prototype.toLowerCase`.  The source
only ever matches ASCII characters after lowercasing, and no non-ASCII
character lowercases to an ASCII character that any pattern or the
`parseFloat` fallback can consume, so ASCII lowering (Lean's
`Char.toLower`) is extensionally faithful here. -/
def jsToLower (l : List Char) : List Char := l.map Char.toLower

/-- Digits of `\d`, read as a base-10 natural number; this is exactly what
`parseInt(s, 10)` computes on an all-digit string, and the integer part of
`parseFloat`. -/
def natOfDigits (l : List Char) : ℕ :=
  l.foldl (fun n c => 10 * n + (c.toNat - 48)) 0

/-- Match the regex fragment `(\d+(?:\.\d+)?)` at the head of the input:
one or more digits with an optional decimal fraction.  Returns the exact
rational value of the matched literal (what `parseFloat` returns on the
captured group) and the rest of the input. -/
def matchNumber (l : List Char) : Option (ℚ × List Char) :=
  let ds := l.takeWhile Char.isDigit
  let r := l.dropWhile Char.isDigit
  if ds = [] then none
  else
    match r with
    | '.' :: r2 =>
      let fs := r2.takeWhile Char.isDigit
      if fs = [] then some ((natOfDigits ds : ℚ), r)
      else
        some ((natOfDigits ds : ℚ) + (natOfDigits fs : ℚ) / 10 ^ fs.length,
          r2.dropWhile Char.isDigit)
    | _ => some ((natOfDigits ds : ℚ), r)

/-- Match the regex fragment `(\d+)` at the head of the input: one or more
digits, valued by `parseInt(_, 10)`. -/
def matchInt (l : List Char) : Option (ℕ × List Char) :=
  let ds := l.takeWhile Char.isDigit
  if ds = [] then none else some (natOfDigits ds, l.dropWhile Char.isDigit)

/-- Skip `\s*`: drop a maximal run of whitespace. -/
def skipWs (l : List Char) : List Char := l.dropWhile isWsChar

/-- Match `\s+`: at least one whitespace character, consumed greedily. -/
def matchWs1 (l : List Char) : Option (List Char) :=
  match l with
  | c :: r => if isWsChar c then some (r.dropWhile isWsChar) else none
  | [] => none

/-- Strip a literal word from the head of the input. -/
def stripWord (w : List Char) (l : List Char) : Option (List Char) :=
  match w, l with
  | [], r => some r
  | _ :: _, [] => none
  | a :: w2, c :: r => if a = c then stripWord w2 r else none

/-- The first pattern of `parseDuration`
(`/^(\d+(?:\.\d+)?)\s*(?:days?|d)$/`): a number followed by a day word at
the very end, valued `parseFloat(m[1]) * 24`. -/
def matchDays (l : List Char) : Option ℚ :=
  match matchNumber l with
  | none => none
  | some (n, r) =>
    let r2 := skipWs r
    if r2 = ['d'] ∨ r2 = ['d', 'a', 'y'] ∨ r2 = ['d', 'a', 'y', 's'] then
      some (n * 24)
    else none

/-- The second pattern of `parseDuration`
(`/^(\d+)\s*(?:days?|d)\s+(\d+(?:\.\d+)?)\s*(?:hours?|h)?$/`): an integer
day count, a day word, mandatory whitespace, a number of hours with an
optional hour word, valued `days * 24 + hours`.  The alternation
`(?:days?|d)` is tried alternative by alternative as the regex engine
does; at most one alternative can lead to a full match because the day
word must be followed by whitespace. -/
def matchDaysHours (l : List Char) : Option ℚ :=
  match matchInt l with
  | none => none
  | some (d, r) =>
    let r2 := skipWs r
    [['d', 'a', 'y', 's'], ['d', 'a', 'y'], ['d']].findSome? fun w =>
      match stripWord w r2 with
      | none => none
      | some r3 =>
        match matchWs1 r3 with
        | none => none
        | some r4 =>
          match matchNumber r4 with
          | none => none
          | some (hq, r5) =>
            let r6 := skipWs r5
            if r6 = [] ∨ r6 = ['h'] ∨ r6 = ['h', 'o', 'u', 'r'] ∨
                r6 = ['h', 'o', 'u', 'r', 's'] then
              some ((d : ℚ) * 24 + hq)
            else none

/-- The third pattern of `parseDuration`
(`/^(\d+(?:\.\d+)?)\s*(?:hours?|h)$/`): a number followed by an hour word
at the very end. -/
def matchHours (l : List Char) : Option ℚ :=
  match matchNumber l with
  | none => none
  | some (n, r) =>
    let r2 := skipWs r
    if r2 = ['h'] ∨ r2 = ['h', 'o', 'u', 'r'] ∨ r2 = ['h', 'o', 'u', 'r', 's'] then
      some n
    else none

/-- The fourth pattern of `parseDuration`
(`/^(\d+)\s*h(?:\s*(\d+)\s*m)?$/`): integer hours, the letter `h`, and an
optional integer-minutes group, valued `hours + minutes / 60`. -/
def matchHoursMinutes (l : List Char) : Option ℚ :=
  match matchInt l with
  | none => none
  | some (h, r) =>
    match skipWs r with
    | 'h' :: r2 =>
      if r2 = [] then some (h : ℚ)
      else
        match matchInt (skipWs r2) with
        | none => none
        | some (m, r3) =>
          if skipWs r3 = ['m'] then some ((h : ℚ) + (m : ℚ) / 60) else none
    | _ => none

/-- The fifth pattern of `parseDuration`
(`/^(\d+)\s*(?:minutes?|mins?|m)$/`): an integer followed by a minute word
at the very end, valued `minutes / 60`. -/
def matchMinutes (l : List Char) : Option ℚ :=
  match matchInt l with
  | none => none
  | some (m, r) =>
    let r2 := skipWs r
    if r2 = ['m'] ∨ r2 = ['m', 'i', 'n'] ∨ r2 = ['m', 'i', 'n', 's'] ∨
        r2 = ['m', 'i', 'n', 'u', 't', 'e'] ∨
        r2 = ['m', 'i', 'n', 'u', 't', 'e', 's'] then
      some ((m : ℚ) / 60)
    else none

/-- The sixth pattern of `parseDuration` (`/^(\d+):(\d+)$/`): the colon
form, valued `hours + minutes / 60`. -/
def matchColon (l : List Char) : Option ℚ :=
  match matchInt l with
  | none => none
  | some (h, r) =>
    match r with
    | ':' :: r2 =>
      match matchInt r2 with
      | none => none
      | some (m, r3) => if r3 = [] then some ((h : ℚ) + (m : ℚ) / 60) else none
    | _ => none

/-- Apply an optional regex-style exponent part (`[eE][+-]?\d+`) to an
already-parsed decimal value, as `parseFloat` does; if no complete
exponent follows, the exponent characters are not part of the literal and
the value is unchanged.  The uppercase `E` cannot occur here because the
input has been lowercased, but is kept for fidelity to `parseFloat`. -/
def applyExp (q : ℚ) (r : List Char) : ℚ :=
  let withDigits : List Char → ℤ → ℚ := fun r3 sgn =>
    let es := r3.takeWhile Char.isDigit
    if es = [] then q else q * (10 : ℚ) ^ (sgn * (natOfDigits es : ℤ))
  match r with
  | 'e' :: r2 | 'E' :: r2 =>
    match r2 with
    | '+' :: r3 => withDigits r3 1
    | '-' :: r3 => withDigits r3 (-1)
    | _ => withDigits r2 1
  | _ => q

/-- JavaScript `parseFloat` on the trimmed, lowercased input: skip leading
whitespace, an optional sign, then the longest prefix that is a valid
decimal literal (digits with optional fraction and exponent, or a fraction
starting with `.`); `none` models `NaN`.  The `Infinity` production of the
grammar is omitted: `parseFloat` recognises the exact spelling `Infinity`
with a capital `I`, which cannot occur in the lowercased input this
function receives. -/
def parseFloatQ (l : List Char) : Option ℚ :=
  let l0 := l.dropWhile isWsChar
  let signed : ℚ × List Char :=
    match l0 with
    | '+' :: r => (1, r)
    | '-' :: r => (-1, r)
    | _ => (1, l0)
  let sign := signed.1
  let l1 := signed.2
  let ds := l1.takeWhile Char.isDigit
  let r := l1.dropWhile Char.isDigit
  if ds = [] then
    match r with
    | '.' :: r2 =>
      let fs := r2.takeWhile Char.isDigit
      if fs = [] then none
      else
        some (sign * applyExp ((natOfDigits fs : ℚ) / 10 ^ fs.length)
          (r2.dropWhile Char.isDigit))
    | _ => none
  else
    match r with
    | '.' :: r2 =>
      let fs := r2.takeWhile Char.isDigit
      some (sign * applyExp
        ((natOfDigits ds : ℚ) + (natOfDigits fs : ℚ) / 10 ^ fs.length)
        (r2.dropWhile Char.isDigit))
    | _ => some (sign * applyExp (natOfDigits ds : ℚ) r)

/-- The function `parseDuration` from `src/lib/timeCalculations.ts` (lines 67-119) on a
character list: trim, lowercase, then try the six anchored patterns in
order, falling back to `parseFloat` (whose `NaN` result, modelled `none`,
is the function's `null`). -/
def parseDurationL (text : List Char) : Option ℚ :=
  let trimmed := jsToLower (jsTrim text)
  match matchDays trimmed with
  | some v => some v
  | none =>
  match matchDaysHours trimmed with
  | some v => some v
  | none =>
  match matchHours trimmed with
  | some v => some v
  | none =>
  match matchHoursMinutes trimmed with
  | some v => some v
  | none =>
  match matchMinutes trimmed with
  | some v => some v
  | none =>
  match matchColon trimmed with
  | some v => some v
  | none => parseFloatQ trimmed

/-- The function `parseDuration` on a Lean `String`. -/
def parseDuration (text : String) : Option ℚ := parseDurationL text.data

/-- Replace the `manualDepartureTime` field of a stop. -/
def setManual (s : TripStop) (v : Option ℚ) : TripStop :=
  { s with manualDepartureTime := v }

/-- The stop list with stop `k`'s `manualDepartureTime` replaced by `v`
(and every other stop untouched). -/
def withManual : List TripStop → ℕ → Option ℚ → List TripStop
  | [], _, _ => []
  | s :: r, 0, v => setManual s v :: r
  | s :: r, k + 1, v => s :: withManual r k v

theorem length_withManual (stops : List TripStop) (k : ℕ) (v : Option ℚ) :
    (withManual stops k v).length = stops.length := by
  induction stops generalizing k with
  | nil => rfl
  | cons s r ih => cases k with
    | zero => rfl
    | succ k => simp [withManual, ih]

theorem get_withManual_self (stops : List TripStop) (k : ℕ) (v : Option ℚ)
    (h : k < stops.length) :
    (withManual stops k v).get ⟨k, by rw [length_withManual]; exact h⟩ =
      setManual (stops.get ⟨k, h⟩) v := by
  induction stops generalizing k with
  | nil => exact absurd h (by simp)
  | cons s r ih => cases k with
    | zero => rfl
    | succ k => exact ih k (by simpa using h)

theorem get_withManual_ne (stops : List TripStop) (k : ℕ) (v : Option ℚ)
    (j : ℕ) (hj : j < stops.length) (hne : j ≠ k) :
    (withManual stops k v).get ⟨j, by rw [length_withManual]; exact hj⟩ =
      stops.get ⟨j, hj⟩ := by
  induction stops generalizing k j with
  | nil => exact absurd hj (by simp)
  | cons s r ih => cases k with
    | zero =>
      cases j with
      | zero => exact absurd rfl hne
      | succ j => rfl
    | succ k =>
      cases j with
      | zero => rfl
      | succ j => exact ih k j (by simpa using hj) (by omega)

theorem take_withManual (stops : List TripStop) (k : ℕ) (v : Option ℚ)
    (n : ℕ) (hn : n ≤ k) :
    (withManual stops k v).take n = stops.take n := by
  induction stops generalizing k n with
  | nil => rfl
  | cons s r ih => cases k with
    | zero =>
      have hn0 : n = 0 := Nat.le_zero.mp hn
      simp [hn0]
    | succ k =>
      cases n with
      | zero => rfl
      | succ n => simp [withManual, List.take_succ_cons, ih k n (by omega)]

theorem calcRest_get_zero (l : List TripStop) (t : ℚ) (h : 0 < l.length) :
    (calcRest l t).get ⟨0, by rw [length_calcRest]; exact h⟩ =
      calcStop (l.get ⟨0, h⟩) t := by
  cases l with
  | nil => exact absurd h (by simp)
  | cons s r => rfl

theorem calcRest_get_succ (l : List TripStop) (t : ℚ) (i : ℕ)
    (h : i + 1 < l.length) :
    (calcRest l t).get ⟨i + 1, by rw [length_calcRest]; exact h⟩ =
      calcStop (l.get ⟨i + 1, h⟩)
        (((calcRest l t).get
          ⟨i, by rw [length_calcRest]; omega⟩).departureTime) := by
  induction i generalizing l t with
  | zero =>
    cases l with
    | nil => exact absurd h (by simp)
    | cons s r =>
      cases r with
      | nil => exact absurd h (by simp)
      | cons s2 r2 => rfl
  | succ i ih =>
    cases l with
    | nil => exact absurd h (by simp)
    | cons s r => exact ih r (calcStop s t).departureTime (by simpa using h)

theorem itin_get_zero (stops : List TripStop) (start : ℚ)
    (h : 0 < stops.length) :
    (calculateItinerary stops start).get
        ⟨0, by rw [length_calculateItinerary]; exact h⟩ =
      calcFirst (stops.get ⟨0, h⟩) start := by
  cases stops with
  | nil => exact absurd h (by simp)
  | cons s r => rfl

theorem itin_get_succ (stops : List TripStop) (start : ℚ) (i : ℕ)
    (h : i + 1 < stops.length) :
    (calculateItinerary stops start).get
        ⟨i + 1, by rw [length_calculateItinerary]; exact h⟩ =
      calcStop (stops.get ⟨i + 1, h⟩)
        (((calculateItinerary stops start).get
          ⟨i, by rw [length_calculateItinerary]; omega⟩).departureTime) := by
  cases stops with
  | nil => exact absurd h (by simp)
  | cons s r =>
    cases i with
    | zero =>
      cases r with
      | nil => exact absurd h (by simp)
      | cons s2 r2 => rfl
    | succ i =>
      have := calcRest_get_succ r (calcFirst s start).departureTime i
        (by simpa using h)
      exact this

theorem calcRest_get_congr (i : ℕ) :
    ∀ (l₁ l₂ : List TripStop) (t : ℚ) (h1 : i < l₁.length)
      (h2 : i < l₂.length), l₁.take (i + 1) = l₂.take (i + 1) →
      (calcRest l₁ t).get ⟨i, by rw [length_calcRest]; exact h1⟩ =
        (calcRest l₂ t).get ⟨i, by rw [length_calcRest]; exact h2⟩ := by
  induction i with
  | zero =>
    intro l₁ l₂ t h1 h2 hpre
    cases l₁ with
    | nil => exact absurd h1 (by simp)
    | cons a r₁ =>
      cases l₂ with
      | nil => exact absurd h2 (by simp)
      | cons b r₂ =>
        have hab : a = b := by simpa using hpre
        subst hab
        rfl
  | succ i ih =>
    intro l₁ l₂ t h1 h2 hpre
    cases l₁ with
    | nil => exact absurd h1 (by simp)
    | cons a r₁ =>
      cases l₂ with
      | nil => exact absurd h2 (by simp)
      | cons b r₂ =>
        obtain ⟨hab, htail⟩ : a = b ∧ r₁.take (i + 1) = r₂.take (i + 1) := by
          simpa [List.take_succ_cons] using hpre
        subst hab
        exact ih r₁ r₂ (calcStop a t).departureTime (by simpa using h1)
          (by simpa using h2) htail

theorem itin_get_congr (stops₁ stops₂ : List TripStop) (start : ℚ) (i : ℕ)
    (h1 : i < stops₁.length) (h2 : i < stops₂.length)
    (hpre : stops₁.take (i + 1) = stops₂.take (i + 1)) :
    (calculateItinerary stops₁ start).get
        ⟨i, by rw [length_calculateItinerary]; exact h1⟩ =
      (calculateItinerary stops₂ start).get
        ⟨i, by rw [length_calculateItinerary]; exact h2⟩ := by
  cases stops₁ with
  | nil => exact absurd h1 (by simp)
  | cons a r₁ =>
    cases stops₂ with
    | nil => exact absurd h2 (by simp)
    | cons b r₂ =>
      cases i with
      | zero =>
        have hab : a = b := by simpa using hpre
        subst hab
        rfl
      | succ i =>
        obtain ⟨hab, htail⟩ : a = b ∧ r₁.take (i + 1) = r₂.take (i + 1) := by
          simpa [List.take_succ_cons] using hpre
        subst hab
        exact calcRest_get_congr i r₁ r₂ (calcFirst a start).departureTime
          (by simpa using h1) (by simpa using h2) htail

theorem mem_calcRest (c : CalculatedStop) (l : List TripStop) (t : ℚ)
    (hc : c ∈ calcRest l t) : ∃ s t2, s ∈ l ∧ c = calcStop s t2 := by
  induction l generalizing t with
  | nil => simp [calcRest] at hc
  | cons s r ih =>
    simp only [calcRest, List.mem_cons] at hc
    cases hc with
    | inl h => exact ⟨s, t, by simp, h⟩
    | inr h =>
      obtain ⟨s2, t2, hs2, hcs⟩ := ih (calcStop s t).departureTime h
      exact ⟨s2, t2, by simp [hs2], hcs⟩

theorem mem_itin (c : CalculatedStop) (stops : List TripStop) (start : ℚ)
    (hc : c ∈ calculateItinerary stops start) :
    (∃ s, s ∈ stops ∧ c = calcFirst s start) ∨
      ∃ s t2, s ∈ stops ∧ c = calcStop s t2 := by
  cases stops with
  | nil => simp [calculateItinerary] at hc
  | cons s r =>
    simp only [calculateItinerary, List.mem_cons] at hc
    cases hc with
    | inl h => exact Or.inl ⟨s, by simp, h⟩
    | inr h =>
      obtain ⟨s2, t2, hs2, hcs⟩ :=
        mem_calcRest c r (calcFirst s start).departureTime h
      exact Or.inr ⟨s2, t2, by simp [hs2], hcs⟩

theorem dep_at_withManual_some (stops : List TripStop) (start : ℚ) (k : ℕ)
    (m : ℚ) (hk : k < stops.length) :
    ((calculateItinerary (withManual stops k (some m)) start).get
        ⟨k, by rw [length_calculateItinerary, length_withManual]; exact hk⟩
      ).departureTime = m := by
  cases k with
  | zero =>
    have h0 : 0 < (withManual stops 0 (some m)).length := by
      rw [length_withManual]; exact hk
    rw [itin_get_zero (withManual stops 0 (some m)) start h0,
      get_withManual_self stops 0 (some m) hk]
    simp [calcFirst, setManual]
  | succ k =>
    have h1 : k + 1 < (withManual stops (k + 1) (some m)).length := by
      rw [length_withManual]; exact hk
    rw [itin_get_succ (withManual stops (k + 1) (some m)) start k h1,
      get_withManual_self stops (k + 1) (some m) hk]
    simp [calcStop, setManual]

theorem itin_shift (stops : List TripStop) (start : ℚ) (k : ℕ)
    (hk : k < stops.length) (m : ℚ)
    (hrest : ∀ j (hj : j < stops.length), k < j →
      (stops.get ⟨j, hj⟩).manualDepartureTime = none) :
    ∀ j, k < j → ∀ hj : j < stops.length,
      ((calculateItinerary (withManual stops k (some m)) start).get
          ⟨j, by rw [length_calculateItinerary, length_withManual]; exact hj⟩
        ).departureTime =
        ((calculateItinerary (withManual stops k none) start).get
          ⟨j, by rw [length_calculateItinerary, length_withManual]; exact hj⟩
        ).departureTime +
        (m - ((calculateItinerary (withManual stops k none) start).get
          ⟨k, by rw [length_calculateItinerary, length_withManual]; exact hk⟩
        ).departureTime) ∧
      ∃ a, ((calculateItinerary (withManual stops k none) start).get
          ⟨j, by rw [length_calculateItinerary, length_withManual]; exact hj⟩
        ).arrivalTime = some a ∧
        ((calculateItinerary (withManual stops k (some m)) start).get
          ⟨j, by rw [length_calculateItinerary, length_withManual]; exact hj⟩
        ).arrivalTime =
          some (a + (m -
            ((calculateItinerary (withManual stops k none) start).get
              ⟨k, by
                rw [length_calculateItinerary, length_withManual]
                exact hk⟩).departureTime)) := by
  intro j hkj
  induction j, Nat.succ_le_of_lt hkj using Nat.le_induction with
  | base =>
    intro hj
    have hB := itin_get_succ (withManual stops k (some m)) start k
      (by rw [length_withManual]; exact hj)
    have hA := itin_get_succ (withManual stops k none) start k
      (by rw [length_withManual]; exact hj)
    rw [get_withManual_ne stops k (some m) (k + 1) hj (by omega)] at hB
    rw [get_withManual_ne stops k none (k + 1) hj (by omega)] at hA
    have hmanual := hrest (k + 1) hj (by omega)
    rw [hA, hB, dep_at_withManual_some stops start k m hk]
    simp only [calcStop, addHours]
    rw [hmanual]
    simp only [Option.getD_none]
    constructor
    · ring
    · refine ⟨((calculateItinerary (withManual stops k none) start).get
        ⟨k, by rw [length_calculateItinerary, length_withManual]; exact hk⟩
        ).departureTime +
        (stops.get ⟨k + 1, hj⟩).driveTimeFromPrevious.getD 0, rfl, ?_⟩
      exact congrArg some (by ring)
  | succ j hkj2 ih =>
    intro hj
    have hj0 : j < stops.length := by omega
    obtain ⟨ihdep, -⟩ := ih hj0
    have hB := itin_get_succ (withManual stops k (some m)) start j
      (by rw [length_withManual]; exact hj)
    have hA := itin_get_succ (withManual stops k none) start j
      (by rw [length_withManual]; exact hj)
    rw [get_withManual_ne stops k (some m) (j + 1) hj (by omega)] at hB
    rw [get_withManual_ne stops k none (j + 1) hj (by omega)] at hA
    have hmanual := hrest (j + 1) hj (by omega)
    rw [hA, hB, ihdep]
    simp only [calcStop, addHours]
    rw [hmanual]
    simp only [Option.getD_none]
    constructor
    · ring
    · refine ⟨((calculateItinerary (withManual stops k none) start).get
        ⟨j, by rw [length_calculateItinerary, length_withManual]; exact hj0⟩
        ).departureTime +
        (stops.get ⟨j + 1, hj⟩).driveTimeFromPrevious.getD 0, rfl, ?_⟩
      exact congrArg some (by ring)

/-- A concrete first stop: no drive time, no time at destination, no
manual override. -/
def stopA : TripStop :=
  { id := "a", placeId := "pa", name := "A", city := "", state := "",
    fullAddress := "", lat := 0, lng := 0, timeAtDestination := 0,
    driveTimeFromPrevious := none, travelType := TravelType.drive,
    notes := "", manualDepartureTime := none }

/-- A concrete second stop: 2 hours drive from the previous stop, 1 hour at
the destination, no manual override. -/
def stopB : TripStop :=
  { stopA with
    id := "b", name := "B", driveTimeFromPrevious := some 2,
    timeAtDestination := 1 }

/-- The stop `stopB` with a manual departure time of hour 0 — earlier than any
arrival computed from a start at hour 8. -/
def stopBManual : TripStop := { stopB with manualDepartureTime := some 0 }

/-- C1: for every stop list, start time and index `i ≥ 1`, the output stop
at `i` arrives at the previous output stop's departure time plus its own
drive time (`null` counted as 0), and, when its `manualDepartureTime` is
unset, departs at that arrival time plus its `timeAtDestination`. -/
theorem calculateItinerary_arrival_recurrence (stops : List TripStop)
    (start : ℚ) (i : ℕ) (h : i < stops.length) (h1 : 1 ≤ i) :
    ((calculateItinerary stops start).get
        ⟨i, by rw [length_calculateItinerary]; exact h⟩).arrivalTime =
      some (((calculateItinerary stops start).get
          ⟨i - 1, by rw [length_calculateItinerary]; omega⟩).departureTime +
        ((calculateItinerary stops start).get
          ⟨i, by rw [length_calculateItinerary]; exact h⟩
          ).driveTimeFromPrevious.getD 0) ∧
    (((calculateItinerary stops start).get
        ⟨i, by rw [length_calculateItinerary]; exact h⟩
        ).manualDepartureTime = none →
      ((calculateItinerary stops start).get
        ⟨i, by rw [length_calculateItinerary]; exact h⟩).departureTime =
      ((calculateItinerary stops start).get
          ⟨i - 1, by rw [length_calculateItinerary]; omega⟩).departureTime +
        ((calculateItinerary stops start).get
          ⟨i, by rw [length_calculateItinerary]; exact h⟩
          ).driveTimeFromPrevious.getD 0 +
        ((calculateItinerary stops start).get
          ⟨i, by rw [length_calculateItinerary]; exact h⟩
          ).timeAtDestination) := by
  cases i with
  | zero => omega
  | succ j =>
    have hg := itin_get_succ stops start j h
    simp only [Nat.add_sub_cancel]
    rw [hg]
    constructor
    · simp [calcStop, addHours]
    · intro hman
      simp only [calcStop, addHours] at hman ⊢
      rw [hman]
      simp [Option.getD_none]

/-- Witness for C1 at the spec's concrete two-stop trip: starting at hour
8, the second stop (2 h drive, 1 h at destination) arrives at hour 10 and
departs at hour 11. -/
theorem calculateItinerary_arrival_recurrence_witness :
    ((calculateItinerary [stopA, stopB] 8).get
        ⟨1, by decide⟩).arrivalTime = some 10 ∧
    ((calculateItinerary [stopA, stopB] 8).get
        ⟨1, by decide⟩).departureTime = 11 := by
  have h := calculateItinerary_arrival_recurrence [stopA, stopB] 8 1
    (by decide) (by decide)
  refine ⟨h.1.trans ?_, (h.2 ?_).trans ?_⟩
  · show some ((8 : ℚ) + 2) = some 10
    norm_num
  · rfl
  · show (8 : ℚ) + 2 + 1 = 11
    norm_num

/-- Counterexample to C2 as stated: with a manual departure at hour 0 on a
stop whose computed arrival is hour 10 (and whose `timeAtDestination` is
the non-negative 1), the output has `departureTime < arrivalTime`. -/
theorem calculateItinerary_departure_before_arrival_cex :
    ((calculateItinerary [stopA, stopBManual] 8).get
        ⟨1, by decide⟩).arrivalTime = some 10 ∧
    0 ≤ ((calculateItinerary [stopA, stopBManual] 8).get
        ⟨1, by decide⟩).timeAtDestination ∧
    ((calculateItinerary [stopA, stopBManual] 8).get
        ⟨1, by decide⟩).departureTime < 10 := by
  refine ⟨?_, ?_, ?_⟩
  · show some ((8 : ℚ) + 2) = some 10
    norm_num
  · show (0 : ℚ) ≤ 1
    norm_num
  · show (0 : ℚ) < 10
    norm_num

/-- C2 as amended: every output stop with an arrival, a non-negative
`timeAtDestination`, and no manual departure override satisfies
`departureTime ≥ arrivalTime`. -/
theorem calculateItinerary_departure_ge_arrival (stops : List TripStop)
    (start : ℚ) (c : CalculatedStop)
    (hc : c ∈ calculateItinerary stops start) (a : ℚ)
    (ha : c.arrivalTime = some a) (htad : 0 ≤ c.timeAtDestination)
    (hman : c.manualDepartureTime = none) : a ≤ c.departureTime := by
  rcases mem_itin c stops start hc with ⟨s, _, hcf⟩ | ⟨s, t2, _, hcs⟩
  · rw [hcf] at ha
    simp [calcFirst] at ha
  · rw [hcs] at ha hman htad ⊢
    simp only [calcStop, addHours] at ha hman htad ⊢
    rw [hman]
    simp only [Option.getD_none]
    have : a = t2 + s.driveTimeFromPrevious.getD 0 := by
      simpa using ha.symm
    rw [this]
    linarith

/-- Witness for the amended C2: in the concrete two-stop trip the second
stop arrives at hour 10 and departs no earlier. -/
theorem calculateItinerary_departure_ge_arrival_witness :
    (10 : ℚ) ≤ ((calculateItinerary [stopA, stopB] 8).get
      ⟨1, by decide⟩).departureTime := by
  exact calculateItinerary_departure_ge_arrival [stopA, stopB] 8
    ((calculateItinerary [stopA, stopB] 8).get ⟨1, by decide⟩)
    (List.get_mem _ _ _) 10
    (by show some ((8 : ℚ) + 2) = some 10; norm_num)
    (by show (0 : ℚ) ≤ 1; norm_num) rfl

/-- C7: in a non-empty itinerary the first output stop has no arrival time
and every later output stop has one. -/
theorem calculateItinerary_first_stop_no_arrival (stops : List TripStop)
    (start : ℚ) (h : stops ≠ []) :
    ((calculateItinerary stops start).get
        ⟨0, by rw [length_calculateItinerary]
               exact List.length_pos.mpr h⟩).arrivalTime = none ∧
    ∀ i (hi : i < stops.length), 1 ≤ i →
      ∃ a, ((calculateItinerary stops start).get
        ⟨i, by rw [length_calculateItinerary]; exact hi⟩
        ).arrivalTime = some a := by
  constructor
  · rw [itin_get_zero stops start (List.length_pos.mpr h)]
    rfl
  · intro i hi h1
    cases i with
    | zero => omega
    | succ j =>
      rw [itin_get_succ stops start j hi]
      exact ⟨_, rfl⟩

/-- Witness for C7 on the concrete two-stop trip. -/
theorem calculateItinerary_first_stop_no_arrival_witness :
    ((calculateItinerary [stopA, stopB] 8).get
        ⟨0, by decide⟩).arrivalTime = none ∧
    ∃ a, ((calculateItinerary [stopA, stopB] 8).get
        ⟨1, by decide⟩).arrivalTime = some a := by
  have h := calculateItinerary_first_stop_no_arrival [stopA, stopB] 8
    (by decide)
  exact ⟨h.1, h.2 1 (by decide) (by decide)⟩

/-- C8: the output has the same length and order as the input, each output
stop preserves every original input field (projecting away the two added
fields recovers the input list exactly), and empty input yields empty
output. -/
theorem calculateItinerary_preserves_stops (stops : List TripStop)
    (start : ℚ) :
    (calculateItinerary stops start).map CalculatedStop.toTripStop = stops ∧
    (calculateItinerary stops start).length = stops.length ∧
    calculateItinerary [] start = [] := by
  refine ⟨?_, length_calculateItinerary stops start, rfl⟩
  cases stops with
  | nil => rfl
  | cons s r =>
    simp only [calculateItinerary, List.map_cons, List.cons.injEq]
    refine ⟨rfl, ?_⟩
    generalize (calcFirst s start).departureTime = t
    induction r generalizing t with
    | nil => rfl
    | cons s2 r2 ih => simp [calcRest, ih, calcStop]

/-- C6: a stop with `manualDepartureTime` set departs at exactly that
value (even when it is earlier than the computed arrival — the override is
not clamped, as the concrete witness shows), and overriding a stop's
manual departure never alters that same stop's own arrival time. -/
theorem calculateItinerary_manual_override_verbatim
    (stops : List TripStop) (start : ℚ) (k : ℕ) (hk : k < stops.length)
    (m : ℚ) :
    (∀ c ∈ calculateItinerary stops start, ∀ mv,
      c.manualDepartureTime = some mv → c.departureTime = mv) ∧
    ((calculateItinerary (withManual stops k (some m)) start).get
        ⟨k, by rw [length_calculateItinerary, length_withManual]; exact hk⟩
      ).arrivalTime =
      ((calculateItinerary (withManual stops k none) start).get
        ⟨k, by rw [length_calculateItinerary, length_withManual]; exact hk⟩
      ).arrivalTime := by
  constructor
  · intro c hc mv hmv
    rcases mem_itin c stops start hc with ⟨s, _, hcf⟩ | ⟨s, t2, _, hcs⟩
    · rw [hcf] at hmv ⊢
      simp only [calcFirst] at hmv ⊢
      rw [hmv]
      rfl
    · rw [hcs] at hmv ⊢
      simp only [calcStop] at hmv ⊢
      rw [hmv]
      rfl
  · cases k with
    | zero =>
      have h1 : 0 < (withManual stops 0 (some m)).length := by
        rw [length_withManual]; exact hk
      have h2 : 0 < (withManual stops 0 none).length := by
        rw [length_withManual]; exact hk
      rw [itin_get_zero _ start h1, itin_get_zero _ start h2]
      rfl
    | succ j =>
      have h1 : j + 1 < (withManual stops (j + 1) (some m)).length := by
        rw [length_withManual]; exact hk
      have h2 : j + 1 < (withManual stops (j + 1) none).length := by
        rw [length_withManual]; exact hk
      rw [itin_get_succ _ start j h1, itin_get_succ _ start j h2]
      rw [get_withManual_self stops (j + 1) (some m) hk,
        get_withManual_self stops (j + 1) none hk]
      have hprev : (calculateItinerary (withManual stops (j + 1) (some m))
            start).get
            ⟨j, by rw [length_calculateItinerary, length_withManual]
                   omega⟩ =
          (calculateItinerary (withManual stops (j + 1) none) start).get
            ⟨j, by rw [length_calculateItinerary, length_withManual]
                   omega⟩ := by
        refine itin_get_congr _ _ start j ?_ ?_ ?_
        · rw [length_withManual]; omega
        · rw [length_withManual]; omega
        · rw [take_withManual stops (j + 1) (some m) (j + 1) (le_refl _),
            take_withManual stops (j + 1) none (j + 1) (le_refl _)]
      rw [hprev]
      simp [calcStop, setManual, addHours]

/-- Witness for C6: in the concrete trip whose second stop has a manual
departure at hour 0, the output departs at hour 0 verbatim (its computed
arrival is hour 10), and overriding versus not overriding leaves that
stop's arrival time unchanged. -/
theorem calculateItinerary_manual_override_verbatim_witness :
    ((calculateItinerary [stopA, stopBManual] 8).get
        ⟨1, by decide⟩).departureTime = 0 ∧
    ((calculateItinerary (withManual [stopA, stopBManual] 1 (some 0)) 8).get
        ⟨1, by decide⟩).arrivalTime =
      ((calculateItinerary (withManual [stopA, stopBManual] 1 none) 8).get
        ⟨1, by decide⟩).arrivalTime := by
  have h := calculateItinerary_manual_override_verbatim
    [stopA, stopBManual] 8 1 (by decide) 0
  exact ⟨h.1 ((calculateItinerary [stopA, stopBManual] 8).get
    ⟨1, by decide⟩) (List.get_mem _ _ _) 0 rfl, h.2⟩

/-- Counterexample to C3 as stated: setting stop 0's manual departure to
hour 8 — the very value the unset run computes — leaves stop 1's arrival
and departure times unchanged, although the claim demands that the times
of every stop after stop 0 change. -/
theorem calculateItinerary_override_no_change_cex :
    ((calculateItinerary (withManual [stopA, stopB] 0 (some 8)) 8).get
        ⟨1, by decide⟩).arrivalTime =
      ((calculateItinerary (withManual [stopA, stopB] 0 none) 8).get
        ⟨1, by decide⟩).arrivalTime ∧
    ((calculateItinerary (withManual [stopA, stopB] 0 (some 8)) 8).get
        ⟨1, by decide⟩).departureTime =
      ((calculateItinerary (withManual [stopA, stopB] 0 none) 8).get
        ⟨1, by decide⟩).departureTime := by
  exact ⟨rfl, rfl⟩

/-- C3 as amended: setting stop `k`'s `manualDepartureTime` never changes
the computed times of any stop before `k`; and whenever the override value
differs from the departure the unset run computes at `k` and no stop after
`k` carries its own manual override, it changes both the arrival and the
departure time of every stop after `k`. -/
theorem calculateItinerary_manual_override_propagation
    (stops : List TripStop) (start : ℚ) (k : ℕ) (hk : k < stops.length)
    (m : ℚ) :
    (∀ j (hj : j < stops.length), j < k →
      (calculateItinerary (withManual stops k (some m)) start).get
          ⟨j, by rw [length_calculateItinerary, length_withManual]
                 exact hj⟩ =
        (calculateItinerary (withManual stops k none) start).get
          ⟨j, by rw [length_calculateItinerary, length_withManual]
                 exact hj⟩) ∧
    (m ≠ ((calculateItinerary (withManual stops k none) start).get
        ⟨k, by rw [length_calculateItinerary, length_withManual]; exact hk⟩
        ).departureTime →
      (∀ j (hj : j < stops.length), k < j →
        (stops.get ⟨j, hj⟩).manualDepartureTime = none) →
      ∀ j (hj : j < stops.length), k < j →
        ((calculateItinerary (withManual stops k (some m)) start).get
            ⟨j, by rw [length_calculateItinerary, length_withManual]
                   exact hj⟩).arrivalTime ≠
          ((calculateItinerary (withManual stops k none) start).get
            ⟨j, by rw [length_calculateItinerary, length_withManual]
                   exact hj⟩).arrivalTime ∧
        ((calculateItinerary (withManual stops k (some m)) start).get
            ⟨j, by rw [length_calculateItinerary, length_withManual]
                   exact hj⟩).departureTime ≠
          ((calculateItinerary (withManual stops k none) start).get
            ⟨j, by rw [length_calculateItinerary, length_withManual]
                   exact hj⟩).departureTime) := by
  constructor
  · intro j hj hjk
    refine itin_get_congr _ _ start j ?_ ?_ ?_
    · rw [length_withManual]; exact hj
    · rw [length_withManual]; exact hj
    · rw [take_withManual stops k (some m) (j + 1) (by omega),
        take_withManual stops k none (j + 1) (by omega)]
  · intro hne hrest j hj hkj
    obtain ⟨hdep, a, harrA, harrB⟩ :=
      itin_shift stops start k hk m hrest j hkj hj
    have hd0 : m - ((calculateItinerary (withManual stops k none) start).get
        ⟨k, by rw [length_calculateItinerary, length_withManual]; exact hk⟩
        ).departureTime ≠ 0 := sub_ne_zero.mpr hne
    constructor
    · rw [harrA, harrB]
      intro hcontra
      apply hd0
      have := Option.some.inj hcontra
      linarith
    · rw [hdep]
      intro hcontra
      apply hd0
      linarith

/-- Witness for the amended C3: overriding stop 0's departure to hour 9
(the unset run departs at 8) changes both times of stop 1. -/
theorem calculateItinerary_manual_override_propagation_witness :
    ((calculateItinerary (withManual [stopA, stopB] 0 (some 9)) 8).get
        ⟨1, by decide⟩).arrivalTime ≠
      ((calculateItinerary (withManual [stopA, stopB] 0 none) 8).get
        ⟨1, by decide⟩).arrivalTime ∧
    ((calculateItinerary (withManual [stopA, stopB] 0 (some 9)) 8).get
        ⟨1, by decide⟩).departureTime ≠
      ((calculateItinerary (withManual [stopA, stopB] 0 none) 8).get
        ⟨1, by decide⟩).departureTime := by
  have h := calculateItinerary_manual_override_propagation
    [stopA, stopB] 8 0 (by decide) 9
  exact h.2 (by show (9 : ℚ) ≠ 8; norm_num) (by decide) 1 (by decide)
    (by decide)

theorem digit_toNat (c : Char) (h : c.isDigit = true) :
    48 ≤ c.toNat ∧ c.toNat ≤ 57 := by
  simp [Char.isDigit] at h
  exact h

theorem digit_not_ws (c : Char) (h : c.isDigit = true) :
    isWsChar c = false := by
  have := digit_toNat c h
  simp [isWsChar]
  omega

theorem digit_toLower (c : Char) (h : c.isDigit = true) :
    c.toLower = c := by
  have := digit_toNat c h
  rw [Char.toLower, if_neg]
  omega

theorem dropWhile_eq_self_of_all {p : Char → Bool} (l : List Char)
    (h : ∀ c ∈ l, p c = false) : l.dropWhile p = l := by
  cases l with
  | nil => rfl
  | cons c r =>
    exact List.dropWhile_cons_of_neg (by simp [h c (by simp)])

theorem jsTrim_of_no_ws (l : List Char)
    (h : ∀ c ∈ l, isWsChar c = false) : jsTrim l = l := by
  unfold jsTrim
  rw [dropWhile_eq_self_of_all l h,
    dropWhile_eq_self_of_all l.reverse
      (fun c hc => h c (List.mem_reverse.mp hc)),
    List.reverse_reverse]

theorem jsToLower_eq_self (l : List Char)
    (h : ∀ c ∈ l, c.toLower = c) : jsToLower l = l := by
  unfold jsToLower
  rw [List.map_congr_left h]
  simp

theorem takeWhile_digits_all (ds : List Char)
    (h : ∀ c ∈ ds, c.isDigit = true) :
    ds.takeWhile Char.isDigit = ds ∧ ds.dropWhile Char.isDigit = [] := by
  induction ds with
  | nil => exact ⟨rfl, rfl⟩
  | cons c r ih =>
    have hc : c.isDigit = true := h c (by simp)
    have ihr := ih (fun x hx => h x (by simp [hx]))
    rw [List.takeWhile_cons_of_pos hc, List.dropWhile_cons_of_pos hc]
    exact ⟨by rw [ihr.1], ihr.2⟩

theorem takeWhile_digits_append (ds : List Char)
    (h : ∀ c ∈ ds, c.isDigit = true) (c : Char) (hc : c.isDigit = false)
    (r : List Char) :
    (ds ++ c :: r).takeWhile Char.isDigit = ds ∧
      (ds ++ c :: r).dropWhile Char.isDigit = c :: r := by
  induction ds with
  | nil =>
    simp only [List.nil_append]
    exact ⟨List.takeWhile_cons_of_neg (by simp [hc]),
      List.dropWhile_cons_of_neg (by simp [hc])⟩
  | cons d ds2 ih =>
    have hd : d.isDigit = true := h d (by simp)
    have ihr := ih (fun x hx => h x (by simp [hx]))
    rw [List.cons_append, List.takeWhile_cons_of_pos hd,
      List.dropWhile_cons_of_pos hd]
    exact ⟨by rw [ihr.1], ihr.2⟩

theorem matchInt_digits_append (ds : List Char) (hne : ds ≠ [])
    (h : ∀ c ∈ ds, c.isDigit = true) (c : Char) (hc : c.isDigit = false)
    (r : List Char) :
    matchInt (ds ++ c :: r) = some (natOfDigits ds, c :: r) := by
  obtain ⟨ht, hd⟩ := takeWhile_digits_append ds h c hc r
  simp [matchInt, ht, hd, hne]

theorem matchInt_digits_all (ds : List Char) (hne : ds ≠ [])
    (h : ∀ c ∈ ds, c.isDigit = true) :
    matchInt ds = some (natOfDigits ds, []) := by
  obtain ⟨ht, hd⟩ := takeWhile_digits_all ds h
  simp [matchInt, ht, hd, hne]

theorem matchNumber_digits_append (ds : List Char) (hne : ds ≠ [])
    (h : ∀ c ∈ ds, c.isDigit = true) (c : Char) (hc : c.isDigit = false)
    (hdot : c ≠ '.') (r : List Char) :
    matchNumber (ds ++ c :: r) = some ((natOfDigits ds : ℚ), c :: r) := by
  obtain ⟨ht, hd⟩ := takeWhile_digits_append ds h c hc r
  simp only [matchNumber, ht, hd, if_neg hne]
  split
  · next r2 heq =>
    exact absurd (by injection heq) hdot
  · rfl

theorem matchDays_colon (hs ms : List Char) (hne : hs ≠ [])
    (hh : ∀ c ∈ hs, c.isDigit = true) :
    matchDays (hs ++ ':' :: ms) = none := by
  simp only [matchDays,
    matchNumber_digits_append hs hne hh ':' (by decide) (by decide) ms,
    skipWs]
  simp only [List.dropWhile_cons_of_neg (show ¬isWsChar ':' = true by decide)]
  rw [if_neg]
  rintro (h1 | h1 | h1) <;> simp at h1

theorem matchHours_colon (hs ms : List Char) (hne : hs ≠ [])
    (hh : ∀ c ∈ hs, c.isDigit = true) :
    matchHours (hs ++ ':' :: ms) = none := by
  simp only [matchHours,
    matchNumber_digits_append hs hne hh ':' (by decide) (by decide) ms,
    skipWs]
  simp only [List.dropWhile_cons_of_neg (show ¬isWsChar ':' = true by decide)]
  rw [if_neg]
  rintro (h1 | h1 | h1) <;> simp at h1

theorem matchMinutes_colon (hs ms : List Char) (hne : hs ≠ [])
    (hh : ∀ c ∈ hs, c.isDigit = true) :
    matchMinutes (hs ++ ':' :: ms) = none := by
  simp only [matchMinutes,
    matchInt_digits_append hs hne hh ':' (by decide) ms, skipWs]
  simp only [List.dropWhile_cons_of_neg (show ¬isWsChar ':' = true by decide)]
  rw [if_neg]
  rintro (h1 | h1 | h1 | h1 | h1) <;> simp at h1

theorem matchDaysHours_colon (hs ms : List Char) (hne : hs ≠ [])
    (hh : ∀ c ∈ hs, c.isDigit = true) :
    matchDaysHours (hs ++ ':' :: ms) = none := by
  simp only [matchDaysHours,
    matchInt_digits_append hs hne hh ':' (by decide) ms, skipWs]
  simp only [List.dropWhile_cons_of_neg (show ¬isWsChar ':' = true by decide)]
  simp [stripWord, List.findSome?]

theorem matchHoursMinutes_colon (hs ms : List Char) (hne : hs ≠ [])
    (hh : ∀ c ∈ hs, c.isDigit = true) :
    matchHoursMinutes (hs ++ ':' :: ms) = none := by
  simp only [matchHoursMinutes,
    matchInt_digits_append hs hne hh ':' (by decide) ms, skipWs]
  simp only [List.dropWhile_cons_of_neg (show ¬isWsChar ':' = true by decide)]
  split
  · next r2 heq => exact absurd heq (by simp)
  · rfl

theorem matchColon_digits (hs ms : List Char) (hne : hs ≠ [])
    (hmne : ms ≠ []) (hh : ∀ c ∈ hs, c.isDigit = true)
    (hm : ∀ c ∈ ms, c.isDigit = true) :
    matchColon (hs ++ ':' :: ms) =
      some ((natOfDigits hs : ℚ) + (natOfDigits ms : ℚ) / 60) := by
  simp only [matchColon,
    matchInt_digits_append hs hne hh ':' (by decide) ms,
    matchInt_digits_all ms hmne hm]
  simp

/-- C10: in the colon form the minutes field is unbounded: for all
non-empty digit strings `hs` and `ms`, `parseDuration` on `hs ++ ":" ++ ms`
returns `hours + minutes / 60` — even when the minutes value is 60 or
more. -/
theorem parseDuration_colon_unbounded (hs ms : List Char) (hne : hs ≠ [])
    (hmne : ms ≠ []) (hh : ∀ c ∈ hs, c.isDigit = true)
    (hm : ∀ c ∈ ms, c.isDigit = true) :
    parseDuration (String.mk (hs ++ ':' :: ms)) =
      some ((natOfDigits hs : ℚ) + (natOfDigits ms : ℚ) / 60) := by
  have hnw : ∀ c ∈ hs ++ ':' :: ms, isWsChar c = false := by
    intro c hc
    rcases List.mem_append.mp hc with h1 | h1
    · exact digit_not_ws c (hh c h1)
    · rcases List.mem_cons.mp h1 with h2 | h2
      · subst h2; decide
      · exact digit_not_ws c (hm c h2)
  have hlow : ∀ c ∈ hs ++ ':' :: ms, c.toLower = c := by
    intro c hc
    rcases List.mem_append.mp hc with h1 | h1
    · exact digit_toLower c (hh c h1)
    · rcases List.mem_cons.mp h1 with h2 | h2
      · subst h2; decide
      · exact digit_toLower c (hm c h2)
  simp only [parseDuration, parseDurationL]
  rw [jsTrim_of_no_ws _ hnw, jsToLower_eq_self _ hlow,
    matchDays_colon hs ms hne hh, matchDaysHours_colon hs ms hne hh,
    matchHours_colon hs ms hne hh, matchHoursMinutes_colon hs ms hne hh,
    matchMinutes_colon hs ms hne hh, matchColon_digits hs ms hne hmne hh hm]

/-- Witness for C10 from the claim's example: `"5:90"` parses to 6.5
hours rather than failing. -/
theorem parseDuration_colon_unbounded_witness :
    parseDuration "5:90" = some (13 / 2) := by
  have h := parseDuration_colon_unbounded ['5'] ['9', '0'] (by decide)
    (by decide) (by decide) (by decide)
  exact h.trans (by with_unfolding_all rfl)

/-- C9: the spec's concrete parser examples: `"1d 6h"` is 30 hours,
`"5h 30m"` and `"5:30"` are 5.5 hours, and `"abc"` is a no-match. -/
theorem parseDuration_examples :
    parseDuration "1d 6h" = some 30 ∧
    parseDuration "5h 30m" = some (11 / 2) ∧
    parseDuration "5:30" = some (11 / 2) ∧
    parseDuration "abc" = none := by
  refine ⟨?_, ?_, ?_, ?_⟩ <;> with_unfolding_all rfl

/-- Counterexample to C4 as stated: the final plain-number fallback uses
`parseFloat`, which accepts a valid numeric prefix followed by extra
characters, so `"5x"` parses as 5 instead of returning the no-match
sentinel. -/
theorem parseDuration_prefix_cex :
    parseDuration "5x" = some 5 ∧ parseDuration "5x" ≠ none := by
  have h : parseDuration "5x" = some 5 := by with_unfolding_all rfl
  exact ⟨h, by rw [h]; simp⟩

/-- C4 as amended: `parseDuration` returns the no-match sentinel exactly
when, after trimming and lowercasing, none of the six anchored unit/colon
patterns matches and the trailing `parseFloat` fallback — which, unlike
the regex patterns, is not anchored and accepts any valid numeric
prefix — yields NaN; being a total function it never raises. -/
theorem parseDuration_none_iff (s : String) :
    parseDuration s = none ↔
      matchDays (jsToLower (jsTrim s.data)) = none ∧
      matchDaysHours (jsToLower (jsTrim s.data)) = none ∧
      matchHours (jsToLower (jsTrim s.data)) = none ∧
      matchHoursMinutes (jsToLower (jsTrim s.data)) = none ∧
      matchMinutes (jsToLower (jsTrim s.data)) = none ∧
      matchColon (jsToLower (jsTrim s.data)) = none ∧
      parseFloatQ (jsToLower (jsTrim s.data)) = none := by
  simp only [parseDuration, parseDurationL]
  cases h1 : matchDays (jsToLower (jsTrim s.data)) with
  | some v => simp [h1]
  | none =>
  cases h2 : matchDaysHours (jsToLower (jsTrim s.data)) with
  | some v => simp [h1, h2]
  | none =>
  cases h3 : matchHours (jsToLower (jsTrim s.data)) with
  | some v => simp [h1, h2, h3]
  | none =>
  cases h4 : matchHoursMinutes (jsToLower (jsTrim s.data)) with
  | some v => simp [h1, h2, h3, h4]
  | none =>
  cases h5 : matchMinutes (jsToLower (jsTrim s.data)) with
  | some v => simp [h1, h2, h3, h4, h5]
  | none =>
  cases h6 : matchColon (jsToLower (jsTrim s.data)) with
  | some v => simp [h1, h2, h3, h4, h5, h6]
  | none => simp [h1, h2, h3, h4, h5, h6]

/-- Counterexample to C5 as stated: at 24.2 hours the remainder 0.2 rounds
to 0, so the claim requires `"1d"`, but the code compares the remainder
with 0 exactly and produces `"1d 0h"`. -/
theorem formatDuration_rounds_to_zero_cex :
    formatDuration (121 / 5) true = "1d 0h" ∧
    jsRound (jsMod (121 / 5) 24) = 0 ∧
    ("1d 0h" : String) ≠ "1d" := by
  refine ⟨?_, ?_, by decide⟩ <;> with_unfolding_all rfl

/-- C5 as amended: for `hours ≥ 24` in day mode the formatter produces
`"<days>d"` exactly when the remainder `hours mod 24` is exactly zero —
not when it merely rounds to zero — and
`"<days>d <round(remainder)>h"` otherwise, with `days = floor(hours/24)`. -/
theorem formatDuration_day_mode (hours : ℚ) (h : 24 ≤ hours) :
    formatDuration hours true =
      if jsMod hours 24 = 0 then toString (jsFloor (hours / 24)) ++ "d"
      else toString (jsFloor (hours / 24)) ++ "d " ++
        toString (jsRound (jsMod hours 24)) ++ "h" := by
  simp only [formatDuration]
  have hc : True ∧ 24 ≤ hours := ⟨trivial, h⟩
  rw [if_pos hc]

/-- Witness for the amended C5 at the spec's example: 30 hours formats as
`"1d 6h"`. -/
theorem formatDuration_day_mode_witness :
    (24 : ℚ) ≤ 30 ∧ formatDuration 30 true = "1d 6h" := by
  refine ⟨by norm_num, ?_⟩
  rw [formatDuration_day_mode 30 (by norm_num)]
  with_unfolding_all rfl

end TripPlanner
